import Mathlib

/-!
Verification of the fastapi-supabase dashboard backend.

Shallow embedding of the route modules' pure aggregation and helper logic:
* `src/routers/meta.py`  — `parse_session_no`, `api_sessions`
* `src/routers/recap.py` — `session_label`
-/

set_option maxRecDepth 4000

/-- Decimal character list of a natural number, big-endian; mirrors the Python
f-string rendering of an `int` (`f"{n}"`). -/
def natToDecChars (n : Nat) : List Char :=
  if n = 0 then ['0'] else ((Nat.digits 10 n).reverse.map Nat.digitChar)

/-- `session_label` from `src/routers/recap.py`: the exact string `f"{n}회"`. -/
def session_label (n : Nat) : String :=
  String.mk (natToDecChars n ++ ['회'])

/-- Value of a big-endian run of decimal digit characters, as Python `int(...)`
computes it on the text matched by the regex group. -/
def digitRunVal (cs : List Char) : Nat :=
  cs.foldl (fun a c => 10 * a + (c.toNat - 48)) 0

/-- The first maximal run of decimal digits in a character list; mirrors the
regex search for a digit group in `parse_session_no` (`src/routers/meta.py`). -/
def firstDigitRun : List Char → Option (List Char)
  | [] => none
  | c :: cs => if c.isDigit then some (c :: cs.takeWhile Char.isDigit) else firstDigitRun cs

/-- `parse_session_no` from `src/routers/meta.py`: `None` maps to `None`;
otherwise the first run of decimal digits of the string, as an integer, or
`None` when the string has no digit. -/
def parse_session_no (s : Option String) : Option Nat :=
  match s with
  | none => none
  | some s => (firstDigitRun s.data).map digitRunVal

theorem digitRunVal_eq_ofDigits (L : List Nat) (hL : ∀ d ∈ L, d < 10) :
    digitRunVal (L.reverse.map Nat.digitChar) = Nat.ofDigits 10 L := by
  induction L with
  | nil => simp [digitRunVal, Nat.ofDigits]
  | cons d L ih =>
    have hd : d < 10 := hL d (by simp)
    have hrest : ∀ x ∈ L, x < 10 := fun x hx => hL x (by simp [hx])
    have hchar : (Nat.digitChar d).toNat - 48 = d := by
      interval_cases d <;> decide
    simp only [List.reverse_cons, List.map_append, List.map_cons, List.map_nil,
      digitRunVal, List.foldl_append, List.foldl_cons, List.foldl_nil] at *
    rw [show (List.foldl (fun a c => 10 * a + (c.toNat - 48)) 0
          (L.reverse.map Nat.digitChar)) = Nat.ofDigits 10 L from ih hrest]
    rw [hchar, Nat.ofDigits_cons]
    ring

theorem natToDecChars_digits (n : Nat) :
    ∀ c ∈ natToDecChars n, c.isDigit = true := by
  intro c hc
  unfold natToDecChars at hc
  by_cases h0 : n = 0
  · simp [h0] at hc
    simp [hc]
  · simp only [h0, if_false, List.mem_map, List.mem_reverse] at hc
    obtain ⟨d, hd, rfl⟩ := hc
    have : d < 10 := Nat.digits_lt_base (by norm_num) hd
    interval_cases d <;> decide

theorem digitRunVal_natToDecChars (n : Nat) :
    digitRunVal (natToDecChars n) = n := by
  unfold natToDecChars
  by_cases h0 : n = 0
  · simp [h0, digitRunVal]
  · simp only [h0, if_false]
    rw [digitRunVal_eq_ofDigits _ (fun d hd => Nat.digits_lt_base (by norm_num) hd)]
    exact Nat.ofDigits_digits 10 n

theorem takeWhile_all_append_not {p : Char → Bool} :
    ∀ (xs : List Char) (y : Char) (ys : List Char),
      (∀ x ∈ xs, p x = true) → p y = false →
      (xs ++ y :: ys).takeWhile p = xs := by
  intro xs y ys hxs hy
  induction xs with
  | nil => simp [List.takeWhile, hy]
  | cons a xs ih =>
    have ha : p a = true := hxs a (by simp)
    simp only [List.cons_append, List.takeWhile_cons, ha, if_true]
    rw [ih (fun x hx => hxs x (by simp [hx]))]

/-- C8 — Session label round-trip: for every integer `n ≥ 1`, parsing the
decorated label `f"{n}회"` back through the first-digit-run extractor
returns `n`: `parse_session_no (session_label n) = n`. -/
theorem session_label_roundtrip (n : Nat) (hn : 1 ≤ n) :
    parse_session_no (some (session_label n)) = some n := by
  have hne : natToDecChars n ≠ [] := by
    unfold natToDecChars
    have h0 : n ≠ 0 := by omega
    simp only [h0, if_false]
    simp [Nat.digits_ne_nil_iff_ne_zero, h0]
  obtain ⟨c, cs, hcons⟩ : ∃ c cs, natToDecChars n = c :: cs := by
    cases h : natToDecChars n with
    | nil => exact absurd h hne
    | cons c cs => exact ⟨c, cs, rfl⟩
  have hdata : (session_label n).data = natToDecChars n ++ ['회'] := rfl
  have hdigits := natToDecChars_digits n
  have hc : c.isDigit = true := hdigits c (by rw [hcons]; simp)
  have hcs : ∀ x ∈ cs, x.isDigit = true := fun x hx => hdigits x (by rw [hcons]; simp [hx])
  have hrun : firstDigitRun ((session_label n).data) = some (natToDecChars n) := by
    rw [hdata, hcons]
    simp only [List.cons_append, firstDigitRun, hc, if_true, List.append_eq]
    rw [takeWhile_all_append_not cs '회' [] hcs (by decide)]
  simp [parse_session_no, hrun, digitRunVal_natToDecChars]

/-- Witness for C8 at `n = 57`. -/
theorem session_label_roundtrip_witness :
    1 ≤ 57 ∧ parse_session_no (some (session_label 57)) = some 57 :=
  ⟨by decide, session_label_roundtrip 57 (by decide)⟩

/-! ## Sessions service (`api_sessions`, src/routers/meta.py)

Each source table's rows are modelled by the value of the one column the
endpoint selects (`회차` / `회의회차`), a nullable string. The Python `set`
is modelled as a duplicate-free accumulator list (insertion order is
irrelevant: the result is sorted). -/

/-- Add to a Python-`set`-like accumulator (no duplicates). -/
def pySetAdd (ses : List Nat) (n : Nat) : List Nat :=
  if n ∈ ses then ses else ses ++ [n]

/-- One iteration of the `api_sessions` collection loops: parse the column
value and add it to the set when truthy (`if n:` — `None` and `0` are both
falsy in Python). -/
def sessionsAdd (ses : List Nat) (r : Option String) : List Nat :=
  match parse_session_no r with
  | some n => if n = 0 then ses else pySetAdd ses n
  | none => ses

/-- `api_sessions` from `src/routers/meta.py`: collect session numbers from
the three recap tables' session-label columns into a set, return them sorted
ascending. -/
def api_sessions (rows_text rows_people rows_data : List (Option String)) : List Nat :=
  let ses := rows_data.foldl sessionsAdd (rows_people.foldl sessionsAdd (rows_text.foldl sessionsAdd []))
  ses.insertionSort (· ≤ ·)

theorem mem_foldl_sessionsAdd (L : List (Option String)) :
    ∀ (s : List Nat) (n : Nat),
      n ∈ L.foldl sessionsAdd s ↔
        n ∈ s ∨ (n ≠ 0 ∧ ∃ r ∈ L, parse_session_no r = some n) := by
  induction L with
  | nil => simp
  | cons r L ih =>
    intro s n
    simp only [List.foldl_cons, ih, List.mem_cons]
    constructor
    · rintro (hs | h)
      · unfold sessionsAdd pySetAdd at hs
        rcases hp : parse_session_no r with _ | m <;> rw [hp] at hs
        · exact Or.inl hs
        · by_cases hm : m = 0
          · simp [hm] at hs
            exact Or.inl hs
          · simp only [hm, if_false] at hs
            by_cases hmem : m ∈ s
            · simp [hmem] at hs
              exact Or.inl hs
            · simp only [hmem, if_false, List.mem_append, List.mem_singleton] at hs
              rcases hs with hs | rfl
              · exact Or.inl hs
              · exact Or.inr ⟨hm, r, Or.inl rfl, hp⟩
      · exact Or.inr ⟨h.1, h.2.choose, Or.inr h.2.choose_spec.1, h.2.choose_spec.2⟩
    · rintro (hs | ⟨hn, r', hr', hp⟩)
      · left
        unfold sessionsAdd pySetAdd
        rcases hp : parse_session_no r with _ | m
        · exact hs
        · by_cases hm : m = 0
          · simpa [hm] using hs
          · simp only [hm, if_false]
            by_cases hmem : m ∈ s <;> simp [hmem, hs]
      · rcases hr' with rfl | hr'
        · left
          unfold sessionsAdd pySetAdd
          rw [hp]
          simp only [hn, if_false]
          by_cases hmem : n ∈ s <;> simp [hmem]
        · exact Or.inr ⟨hn, r', hr', hp⟩

theorem nodup_foldl_sessionsAdd (L : List (Option String)) :
    ∀ s : List Nat, s.Nodup → (L.foldl sessionsAdd s).Nodup := by
  induction L with
  | nil => intro s hs; simpa using hs
  | cons r L ih =>
    intro s hs
    refine ih _ ?_
    unfold sessionsAdd pySetAdd
    rcases parse_session_no r with _ | m
    · exact hs
    · by_cases hm : m = 0
      · simpa [hm] using hs
      · simp only [hm, if_false]
        by_cases hmem : m ∈ s
        · simpa [hmem] using hs
        · simp only [hmem, if_false]
          simp [List.nodup_append, hs, hmem]

/-- C2 (amended) — Sessions union, restricted to nonzero parses: the output is
strictly ascending (so each number appears exactly once) and contains exactly
the nonzero session numbers parsed from any row of the three sources (a parsed
`0` is discarded by the Python truthiness test `if n:`). -/
theorem api_sessions_sorted_union (t p d : List (Option String)) :
    List.Sorted (· < ·) (api_sessions t p d) ∧
      ∀ n : Nat, n ∈ api_sessions t p d ↔
        n ≠ 0 ∧ ∃ r, (r ∈ t ∨ r ∈ p ∨ r ∈ d) ∧ parse_session_no r = some n := by
  have hperm := List.perm_insertionSort (α := Nat) (· ≤ ·)
    (d.foldl sessionsAdd (p.foldl sessionsAdd (t.foldl sessionsAdd [])))
  have hnodup : (d.foldl sessionsAdd (p.foldl sessionsAdd (t.foldl sessionsAdd []))).Nodup :=
    nodup_foldl_sessionsAdd d _ (nodup_foldl_sessionsAdd p _
      (nodup_foldl_sessionsAdd t _ List.nodup_nil))
  constructor
  · exact (List.sorted_insertionSort (· ≤ ·) _).lt_of_le (hperm.nodup_iff.mpr hnodup)
  · intro n
    rw [show api_sessions t p d =
        (d.foldl sessionsAdd (p.foldl sessionsAdd (t.foldl sessionsAdd []))).insertionSort (· ≤ ·)
      from rfl, hperm.mem_iff]
    rw [mem_foldl_sessionsAdd, mem_foldl_sessionsAdd, mem_foldl_sessionsAdd]
    constructor
    · rintro (((h | ⟨hn, r, hr, hp⟩) | ⟨hn, r, hr, hp⟩) | ⟨hn, r, hr, hp⟩)
      · simp at h
      · exact ⟨hn, r, Or.inl hr, hp⟩
      · exact ⟨hn, r, Or.inr (Or.inl hr), hp⟩
      · exact ⟨hn, r, Or.inr (Or.inr hr), hp⟩
    · rintro ⟨hn, r, (hr | hr | hr), hp⟩
      · exact Or.inl (Or.inl (Or.inr ⟨hn, r, hr, hp⟩))
      · exact Or.inl (Or.inr ⟨hn, r, hr, hp⟩)
      · exact Or.inr ⟨hn, r, hr, hp⟩

/-- C2 (counterexample) — a row whose session label parses to `0` (the label
string `"0회"`) is parsed successfully (`some 0`) yet is absent from the
output, so not every parsed number appears in the returned list. -/
theorem api_sessions_drops_zero :
    parse_session_no (some "0회") = some 0 ∧ api_sessions [some "0회"] [] [] = [] := by
  constructor <;> rfl

/-! ## Quarter arithmetic (src/routers/trend.py) -/

/-- `prev_quarter` from `src/routers/trend.py` (`q -= 1; if q <= 0: y -= 1; q = 4`). -/
def prev_quarter (y q : Int) : Int × Int :=
  let q' := q - 1
  if q' ≤ 0 then (y - 1, 4) else (y, q')

/-- `shift_back_quarters` from `src/routers/trend.py`: apply `prev_quarter`
`n_back` times. -/
def shift_back_quarters (y q : Int) : Nat → Int × Int
  | 0 => (y, q)
  | n + 1 => shift_back_quarters (prev_quarter y q).1 (prev_quarter y q).2 n

/-- The start-of-range computation for `recent_n_quarters` in
`api_trend2_series` (`src/routers/trend.py` lines 215–216):
`n = max(1, recent_n_quarters); shift_back_quarters(y2, q2, n - 1)`. -/
def trendRecentStart (y q : Int) (recentN : Int) : Int × Int :=
  shift_back_quarters y q (max 1 recentN - 1).toNat

theorem shift_back_quarters_ordinal (y q : Int) (h1 : 1 ≤ q) (h4 : q ≤ 4) (n : Nat) :
    1 ≤ (shift_back_quarters y q n).2 ∧ (shift_back_quarters y q n).2 ≤ 4 ∧
      4 * (shift_back_quarters y q n).1 + (shift_back_quarters y q n).2 = 4 * y + q - n := by
  induction n generalizing y q with
  | zero => simp [shift_back_quarters]; omega
  | succ n ih =>
    simp only [shift_back_quarters, prev_quarter]
    by_cases h : q - 1 ≤ 0
    · have hq : q = 1 := by omega
      simp only [h, if_true]
      have hrec := ih (y - 1) 4 (by omega) (by omega)
      refine ⟨hrec.1, hrec.2.1, ?_⟩
      rw [hrec.2.2]
      push_cast
      omega
    · simp only [h, if_false]
      have hrec := ih y (q - 1) (by omega) (by omega)
      refine ⟨hrec.1, hrec.2.1, ?_⟩
      rw [hrec.2.2]
      push_cast
      omega

/-- C5 — Recent-N-quarters arithmetic is calendar-correct: stepping back any
number of quarters from an anchor with `quarter ∈ 1..4` keeps the quarter in
`1..4` and decreases the linear quarter index (`4*year + quarter`) by exactly
the number of steps (so quarter 1 rolls into the previous year's quarter 4,
as `prev_quarter y 1 = (y-1, 4)` states directly); in particular
`recent_n_quarters = 4` anchored at `(2025, Q1)` yields the start quarter
`shift_back_quarters 2025 1 3 = (2024, 2)`, i.e. the range `2024-Q2..2025-Q1`. -/
theorem recent_n_quarters_calendar_correct :
    (∀ (y q : Int), 1 ≤ q → q ≤ 4 → ∀ n : Nat,
      1 ≤ (shift_back_quarters y q n).2 ∧ (shift_back_quarters y q n).2 ≤ 4 ∧
        4 * (shift_back_quarters y q n).1 + (shift_back_quarters y q n).2 = 4 * y + q - n) ∧
    (∀ y : Int, prev_quarter y 1 = (y - 1, 4)) ∧
    shift_back_quarters 2025 1 3 = (2024, 2) ∧
    trendRecentStart 2025 1 4 = (2024, 2) := by
  refine ⟨shift_back_quarters_ordinal, fun y => ?_, by decide, by decide⟩
  simp [prev_quarter]

/-- Witness for C5's quantified part at `(y,q) = (2022,1)`, `n = 5`
(which lands on `2020-Q4`). -/
theorem recent_n_quarters_calendar_correct_witness :
    1 ≤ (shift_back_quarters 2022 1 5).2 ∧ (shift_back_quarters 2022 1 5).2 ≤ 4 ∧
      4 * (shift_back_quarters 2022 1 5).1 + (shift_back_quarters 2022 1 5).2 = 8084 := by
  have h := recent_n_quarters_calendar_correct.1 2022 1 (by norm_num) (by norm_num) 5
  refine ⟨h.1, h.2.1, ?_⟩
  rw [h.2.2]
  norm_num

/-! ## Law2 stacked aggregations (src/routers/law.py) -/

/-- Code-point lexicographic comparison of character lists: the string order
Python and JavaScript use (and Lean's, made kernel-executable). -/
def charListLt : List Char → List Char → Bool
  | [], [] => false
  | [], _ :: _ => true
  | _ :: _, [] => false
  | a :: as, b :: bs =>
    if a.toNat < b.toNat then true
    else if b.toNat < a.toNat then false
    else charListLt as bs

/-- Python / JavaScript string `<`. -/
def pyStrLt (a b : String) : Bool :=
  charListLt a.data b.data

/-- Python / JavaScript string `<=`. -/
def pyStrLe (a b : String) : Bool :=
  !pyStrLt b a

/-- A fetched `law2` fact row, with the columns the stacking endpoints select. -/
structure Law2Row where
  assembly : Option Int
  l2 : Option String
  l3 : Option String
  party : Option String
  scope : Option String
  count : Option Int
deriving DecidableEq

/-- `_scope_key` from `src/routers/law.py`: remove every space from the scope
value (`'법 개정' → '법개정'`), `None` mapping to the empty string. -/
def scope_key (s : Option String) : String :=
  String.mk ((s.getD "").data.filter (fun c => c ≠ ' '))

/-- One output row of `law2_stack_category`. -/
structure CatRow where
  category : String
  num_scope_law : Int
  num_scope_system : Int
  num_scope_rule : Int
deriving DecidableEq

/-- `_base_category_row` from `src/routers/law.py`. -/
def base_category_row (c : String) : CatRow :=
  ⟨c, 0, 0, 0⟩

/-- The scope if/elif chain shared by both stacking loops, on a category row. -/
def applyScopeCat (scope : String) (cnt : Int) (row : CatRow) : CatRow :=
  if scope = "법개정" then { row with num_scope_law := row.num_scope_law + cnt }
  else if scope = "제도개선" then { row with num_scope_system := row.num_scope_system + cnt }
  else if scope = "규정변경" then { row with num_scope_rule := row.num_scope_rule + cnt }
  else row

/-- One iteration of the `law2_stack_category` loop (`src/routers/law.py`
lines 110–126): skip rows with a falsy grouping key, create the key's row on
first sight, then add `count` to the counter selected by the normalized scope. -/
def catStep (groupByL2 : Bool) (out : List CatRow) (r : Law2Row) : List CatRow :=
  let key := (if groupByL2 then r.l2 else r.l3).getD ""
  if key = "" then out
  else
    let scope := scope_key r.scope
    let cnt := r.count.getD 0
    let out' := if out.any (fun c => c.category = key) then out else out ++ [base_category_row key]
    out'.map (fun c => if c.category = key then applyScopeCat scope cnt c else c)

/-- `law2_stack_category` from `src/routers/law.py`: the grouping axis is `l2`
when the `l2` selector is `"전체"`, else `l3`; the dict is returned as rows
sorted by key ascending. -/
def law2_stack_category (l2sel : String) (rows : List Law2Row) : List CatRow :=
  (rows.foldl (catStep (l2sel = "전체")) []).insertionSort (fun a b => pyStrLe a.category b.category)

/-- One output row of `law2_stack_party`. -/
structure PartyRow where
  party : String
  num_scope_law : Int
  num_scope_system : Int
  num_scope_rule : Int
deriving DecidableEq

/-- `_base_party_row` from `src/routers/law.py`. -/
def base_party_row (p : String) : PartyRow :=
  ⟨p, 0, 0, 0⟩

/-- The scope if/elif chain of the party loop. -/
def applyScopeParty (scope : String) (cnt : Int) (row : PartyRow) : PartyRow :=
  if scope = "법개정" then { row with num_scope_law := row.num_scope_law + cnt }
  else if scope = "제도개선" then { row with num_scope_system := row.num_scope_system + cnt }
  else if scope = "규정변경" then { row with num_scope_rule := row.num_scope_rule + cnt }
  else row

/-- One iteration of the `law2_stack_party` loop (`src/routers/law.py`
lines 163–179). -/
def partyStep (out : List PartyRow) (r : Law2Row) : List PartyRow :=
  let key := r.party.getD ""
  if key = "" then out
  else
    let scope := scope_key r.scope
    let cnt := r.count.getD 0
    let out' := if out.any (fun c => c.party = key) then out else out ++ [base_party_row key]
    out'.map (fun c => if c.party = key then applyScopeParty scope cnt c else c)

/-- `law2_stack_party` from `src/routers/law.py`. -/
def law2_stack_party (rows : List Law2Row) : List PartyRow :=
  (rows.foldl partyStep []).insertionSort (fun a b => pyStrLe a.party b.party)

/-- C6 — Scope-counter exclusivity: both spellings of the scope normalize to
`"법개정"`; a single fact row with scope `"법 개정"` (or `"법개정"`) and
`count = 7` yields, in both stacking endpoints, exactly one output row whose
`num_scope_law` is 7 and whose other two counters are 0; and on any
pre-existing group row the scope chain adds 7 to `num_scope_law` only. -/
theorem law2_scope_counter_exclusive :
    scope_key (some "법 개정") = "법개정" ∧
    scope_key (some "법개정") = "법개정" ∧
    law2_stack_category "전체" [⟨none, some "X", none, none, some "법 개정", some 7⟩] =
      [⟨"X", 7, 0, 0⟩] ∧
    law2_stack_category "전체" [⟨none, some "X", none, none, some "법개정", some 7⟩] =
      [⟨"X", 7, 0, 0⟩] ∧
    law2_stack_party [⟨none, some "X", none, some "P", some "법 개정", some 7⟩] =
      [⟨"P", 7, 0, 0⟩] ∧
    law2_stack_party [⟨none, some "X", none, some "P", some "법개정", some 7⟩] =
      [⟨"P", 7, 0, 0⟩] ∧
    (∀ c : CatRow, applyScopeCat "법개정" 7 c =
      { c with num_scope_law := c.num_scope_law + 7 }) ∧
    (∀ p : PartyRow, applyScopeParty "법개정" 7 p =
      { p with num_scope_law := p.num_scope_law + 7 }) := by
  refine ⟨by decide, by decide, by decide, by decide, by decide, by decide, ?_, ?_⟩
  · intro c
    simp [applyScopeCat]
  · intro p
    simp [applyScopeParty]

theorem catStep_skip (gb : Bool) (out : List CatRow) (r : Law2Row)
    (h : (if gb then r.l2 else r.l3).getD "" = "") : catStep gb out r = out := by
  simp [catStep, h]

theorem partyStep_skip (out : List PartyRow) (r : Law2Row)
    (h : r.party.getD "" = "") : partyStep out r = out := by
  simp [partyStep, h]

/-- C10 — Law2 stacking silently drops rows with a missing grouping key:
removing a row whose grouping-axis value (`l2` when the selector is `"전체"`,
else `l3`) is null or empty does not change `law2_stack_category`'s output,
and likewise for a null/empty `party` in `law2_stack_party`; in particular no
fallback bucket is ever created for such rows. -/
theorem law2_stack_drops_missing_key :
    (∀ (l2sel : String) (pre suf : List Law2Row) (r : Law2Row),
      (if l2sel = "전체" then r.l2 else r.l3).getD "" = "" →
      law2_stack_category l2sel (pre ++ r :: suf) = law2_stack_category l2sel (pre ++ suf)) ∧
    (∀ (pre suf : List Law2Row) (r : Law2Row),
      r.party.getD "" = "" →
      law2_stack_party (pre ++ r :: suf) = law2_stack_party (pre ++ suf)) := by
  constructor
  · intro l2sel pre suf r h
    have h' : (if (decide (l2sel = "전체") : Bool) then r.l2 else r.l3).getD "" = "" := by
      by_cases hc : l2sel = "전체" <;> simp only [hc] at h ⊢ <;> simpa using h
    unfold law2_stack_category
    rw [List.foldl_append, List.foldl_append, List.foldl_cons, catStep_skip _ _ _ h']
  · intro pre suf r h
    unfold law2_stack_party
    rw [List.foldl_append, List.foldl_append, List.foldl_cons, partyStep_skip _ _ h]

/-- Witness for C10: a row with no `l2` (axis = `l2` since the selector is
`"전체"`) is invisible to the category stack, and a row with no `party` is
invisible to the party stack. -/
theorem law2_stack_drops_missing_key_witness :
    ((if "전체" = "전체" then (none : Option String) else some "x").getD "" = "" ∧
      law2_stack_category "전체" [⟨none, none, none, none, some "법개정", some 3⟩] =
        law2_stack_category "전체" []) ∧
    ((⟨none, some "a", none, none, some "법개정", some 3⟩ : Law2Row).party.getD "" = "" ∧
      law2_stack_party [⟨none, some "a", none, none, some "법개정", some 3⟩] =
        law2_stack_party []) :=
  ⟨⟨by decide,
    law2_stack_drops_missing_key.1 "전체" [] [] ⟨none, none, none, none, some "법개정", some 3⟩
      (by decide)⟩,
   ⟨by decide,
    law2_stack_drops_missing_key.2 [] [] ⟨none, some "a", none, none, some "법개정", some 3⟩
      (by decide)⟩⟩

/-! ## Generic data-store access client (src/core/supabase.py, src/routers/news.py)

The HTTP round trip is modelled by an oracle `net` mapping the request URL,
headers, and query parameters to a store response; the second component of the
result counts how many outbound requests the call issued. -/

/-- An HTTP error raised to the framework (`HTTPException(status_code, detail)`). -/
structure HTTPError where
  status : Nat
  detail : String
deriving DecidableEq

/-- A decoded response from the data store's REST interface. -/
structure NetResponse (α : Type) where
  status : Nat
  body : String
  json : List α

/-- `_headers` from `src/core/supabase.py`. -/
def sb_headers (key : String) : List (String × String) :=
  [("apikey", key), ("Authorization", "Bearer " ++ key)]

/-- `sb_select` from `src/core/supabase.py`: fail with HTTP 500 before any
network call when the base URL or key is unset (empty), otherwise issue exactly
one request and relay a `>= 400` store status verbatim. -/
def sb_select (α : Type) (supabase_url supabase_key table : String)
    (params : List (String × String))
    (net : String → List (String × String) → List (String × String) → NetResponse α) :
    Except HTTPError (List α) × Nat :=
  if supabase_url = "" ∨ supabase_key = "" then
    (Except.error ⟨500, "SUPABASE_URL / SUPABASE_KEY 가 설정되지 않았습니다. (.env 또는 run.cmd 확인)"⟩, 0)
  else
    let r := net (supabase_url ++ "/rest/v1/" ++ table) (sb_headers supabase_key) params
    if 400 ≤ r.status then (Except.error ⟨r.status, r.body⟩, 1) else (Except.ok r.json, 1)

/-- `_headers` from `src/routers/news.py` (empty when credentials are unset). -/
def news_headers (url key : String) : List (String × String) :=
  if url = "" ∨ key = "" then []
  else [("apikey", key), ("Authorization", "Bearer " ++ key), ("Accept", "application/json")]

/-- The module-local `sb_select` of `src/routers/news.py` (same contract as the
core client, different operator message). -/
def news_sb_select (α : Type) (supabase_url supabase_key table : String)
    (params : List (String × String))
    (net : String → List (String × String) → List (String × String) → NetResponse α) :
    Except HTTPError (List α) × Nat :=
  if supabase_url = "" ∨ supabase_key = "" then
    (Except.error ⟨500, "SUPABASE_URL / SUPABASE_KEY 미설정"⟩, 0)
  else
    let r := net (supabase_url ++ "/rest/v1/" ++ table) (news_headers supabase_url supabase_key) params
    if 400 ≤ r.status then (Except.error ⟨r.status, r.body⟩, 1) else (Except.ok r.json, 1)

/-- C7 — Missing-credentials fast-fail: for every table, parameter map and
network behaviour, when the store base URL or the access key is the empty
string both store clients raise HTTP 500 with their operator-facing message
and issue zero outbound requests. -/
theorem sb_select_missing_credentials_fast_fail (α : Type)
    (url key table : String) (params : List (String × String))
    (net net2 : String → List (String × String) → List (String × String) → NetResponse α)
    (h : url = "" ∨ key = "") :
    sb_select α url key table params net =
      (Except.error ⟨500, "SUPABASE_URL / SUPABASE_KEY 가 설정되지 않았습니다. (.env 또는 run.cmd 확인)"⟩, 0) ∧
    news_sb_select α url key table params net2 =
      (Except.error ⟨500, "SUPABASE_URL / SUPABASE_KEY 미설정"⟩, 0) := by
  constructor <;> simp [sb_select, news_sb_select, h]

/-- Witness for C7 with the URL unset and a network oracle that would answer
200 with one row. -/
theorem sb_select_missing_credentials_fast_fail_witness :
    ("" = "" ∨ "some-key" = "") ∧
    sb_select Nat "" "some-key" "trend2" [("select", "year,quarter")]
        (fun _ _ _ => ⟨200, "", [1]⟩) =
      (Except.error ⟨500, "SUPABASE_URL / SUPABASE_KEY 가 설정되지 않았습니다. (.env 또는 run.cmd 확인)"⟩, 0) ∧
    news_sb_select Nat "" "some-key" "news_qa" []
        (fun _ _ _ => ⟨200, "", [1]⟩) =
      (Except.error ⟨500, "SUPABASE_URL / SUPABASE_KEY 미설정"⟩, 0) :=
  ⟨Or.inl rfl,
   (sb_select_missing_credentials_fast_fail Nat "" "some-key" "trend2"
      [("select", "year,quarter")] (fun _ _ _ => ⟨200, "", [1]⟩)
      (fun _ _ _ => ⟨200, "", [1]⟩) (Or.inl rfl)).1,
   (sb_select_missing_credentials_fast_fail Nat "" "some-key" "news_qa"
      [] (fun _ _ _ => ⟨200, "", [1]⟩)
      (fun _ _ _ => ⟨200, "", [1]⟩) (Or.inl rfl)).2⟩

/-! ## Trend series aggregation (src/routers/trend.py, src/main.py) -/

/-- Python whitespace for `str.strip` / regex `\s` (ASCII range). -/
def pyIsSpace (c : Char) : Bool :=
  c = ' ' || c = '\t' || c = '\n' || c = '\r' || c = '\x0b' || c = '\x0c'

/-- Python `str.strip()`. -/
def pyStrip (s : String) : String :=
  String.mk (((s.data.dropWhile pyIsSpace).reverse.dropWhile pyIsSpace).reverse)

/-- A fetched `trend2` row with the columns the series endpoint selects;
`none` models a null (or, for `year`/`quarter`, non-integer) column. -/
structure TrendRow where
  year : Option Int
  quarter : Option Int
  session : Option Int
  label_l2 : Option String
  label_l3 : Option String
  meeting_key : Option String
deriving DecidableEq

/-- `_session_in_assemblies` from `src/routers/trend.py`: empty filter accepts
everything; a null session is rejected; otherwise membership in the fixed
term ranges `20 → [353,378]`, `21 → [379,414]`, `22 → [415,∞)`. -/
def session_in_assemblies (session : Option Int) (assemblies : List Int) : Bool :=
  if assemblies = [] then true
  else
    match session with
    | none => false
    | some s =>
      (assemblies.contains 20 && decide (353 ≤ s ∧ s ≤ 378)) ||
      (assemblies.contains 21 && decide (379 ≤ s ∧ s ≤ 414)) ||
      (assemblies.contains 22 && decide (415 ≤ s))

/-- Python tuple comparison `(y1,q1) <= (y2,q2)` (lexicographic). -/
def yqLe (y1 q1 y2 q2 : Int) : Bool :=
  decide (y1 < y2 ∨ (y1 = y2 ∧ q1 ≤ q2))

/-- Python tuple comparison `(y1,q1) < (y2,q2)` (lexicographic). -/
def yqLt (y1 q1 y2 q2 : Int) : Bool :=
  decide (y1 < y2 ∨ (y1 = y2 ∧ q1 < q2))

/-- `_in_yq_range` from `src/routers/trend.py`. -/
def in_yq_range (y q y1 q1 y2 q2 : Int) : Bool :=
  yqLe y1 q1 y q && yqLe y q y2 q2

/-- The period bucket string `f"{y}-Q{q}"`. -/
def periodStr (y q : Int) : String :=
  toString y ++ "-Q" ++ toString q

/-- `agg[(period, label)] += 1` on a `defaultdict(int)` modelled as an
insertion-ordered association list. -/
def aggIncr (m : List ((String × String) × Nat)) (k : String × String) :
    List ((String × String) × Nat) :=
  if m.any (fun e => e.1 = k) then m.map (fun e => if e.1 = k then (e.1, e.2 + 1) else e)
  else m ++ [(k, 1)]

/-- The grouping label of a row: `label_l3` when grouping by `l3`, else
`label_l2`, with null/empty falling back to `"미분류"`. -/
def trendLabel (groupByL3 : Bool) (r : TrendRow) : String :=
  let v := (if groupByL3 then r.label_l3 else r.label_l2).getD ""
  if v = "" then "미분류" else v

/-- The row-processing loop of `api_trend2_series` (`src/routers/trend.py`
lines 257–284) over the newest-first row stream: a row older than the start
quarter stops the whole scan; rows beyond the end quarter, rows failing the
assembly filter, and rows outside the range are skipped; every surviving row
adds exactly 1 to its `(period, label)` bucket. -/
def trendAggRows (groupByL3 : Bool) (y1 q1 y2 q2 : Int) (asm : List Int) :
    List TrendRow → List ((String × String) × Nat) → List ((String × String) × Nat)
  | [], agg => agg
  | r :: rest, agg =>
    match r.year, r.quarter with
    | some y, some q =>
      if yqLt y q y1 q1 then agg
      else
        let agg' :=
          if yqLt y2 q2 y q then agg
          else if !session_in_assemblies r.session asm then agg
          else if !in_yq_range y q y1 q1 y2 q2 then agg
          else aggIncr agg (periodStr y q, trendLabel groupByL3 r)
        trendAggRows groupByL3 y1 q1 y2 q2 asm rest agg'
    | _, _ => trendAggRows groupByL3 y1 q1 y2 q2 asm rest agg

/-- `api_trend2_series` from `src/routers/trend.py` (aggregation phase): the
bucket map over the fetched newest-first rows, flattened to
`{period, label, count}` triples sorted by `(period, label)` ascending. -/
def api_trend2_series_agg (groupByL3 : Bool) (y1 q1 y2 q2 : Int) (asm : List Int)
    (rows : List TrendRow) : List (String × String × Nat) :=
  let agg := trendAggRows groupByL3 y1 q1 y2 q2 asm rows []
  (agg.map (fun e => (e.1.1, e.1.2, e.2))).insertionSort
    (fun a b => pyStrLt a.1 b.1 || (a.1 == b.1 && pyStrLe a.2.1 b.2.1))

/-- `_quarter_ordinal` from `src/main.py` (`y*4 + q`). -/
def quarter_ordinal (y q : Int) : Int :=
  y * 4 + q

/-- `_in_ordinal_range` from `src/main.py`. -/
def in_ordinal_range (y q start_ord end_ord : Int) : Bool :=
  decide (start_ord ≤ quarter_ordinal y q ∧ quarter_ordinal y q ≤ end_ord)

/-- The grouping label in the legacy `src/main.py` series endpoint
(strip, then `"미분류"` fallback). -/
def legacyTrendLabel (groupByL3 : Bool) (r : TrendRow) : String :=
  let v := pyStrip ((if groupByL3 then r.label_l3 else r.label_l2).getD "")
  if v = "" then "미분류" else v

/-- The aggregation loop of the legacy `api_trend2_series` in `src/main.py`
(lines 337–358): keep rows with integer year/quarter, `1 ≤ q ≤ 4`, inside the
ordinal range; each contributes 1; output sorted by
`(period, -count, label)` ascending. -/
def legacy_api_trend2_series_agg (groupByL3 : Bool) (start_ord end_ord : Int)
    (rows : List TrendRow) : List (String × String × Nat) :=
  let agg := rows.foldl (fun agg r =>
    match r.year, r.quarter with
    | some y, some q =>
      if 1 ≤ q ∧ q ≤ 4 then
        if in_ordinal_range y q start_ord end_ord then
          aggIncr agg (periodStr y q, legacyTrendLabel groupByL3 r)
        else agg
      else agg
    | _, _ => agg) []
  (agg.map (fun e => (e.1.1, e.1.2, e.2))).insertionSort
    (fun a b => pyStrLt a.1 b.1 ||
      (a.1 == b.1 && (decide (b.2.2 < a.2.2) || (a.2.2 == b.2.2 && pyStrLe a.2.1 b.2.1))))

theorem aggIncr_pos (m : List ((String × String) × Nat)) (k : String × String)
    (hm : ∀ e ∈ m, 1 ≤ e.2) : ∀ e ∈ aggIncr m k, 1 ≤ e.2 := by
  intro e he
  unfold aggIncr at he
  by_cases h : m.any (fun e => e.1 = k)
  · rw [if_pos h] at he
    rw [List.mem_map] at he
    obtain ⟨x, hx, rfl⟩ := he
    by_cases hk : x.1 = k
    · simp only [hk, if_pos rfl]
      exact Nat.le_succ_of_le (hm x hx)
    · simpa [hk] using hm x hx
  · rw [if_neg h] at he
    rcases List.mem_append.mp he with he' | he'
    · exact hm e he'
    · have hek : e = (k, 1) := List.mem_singleton.mp he'
      subst hek
      exact le_refl 1

theorem trendAggRows_pos (g : Bool) (y1 q1 y2 q2 : Int) (asm : List Int) :
    ∀ (rows : List TrendRow) (agg : List ((String × String) × Nat)),
      (∀ e ∈ agg, 1 ≤ e.2) → ∀ e ∈ trendAggRows g y1 q1 y2 q2 asm rows agg, 1 ≤ e.2 := by
  intro rows
  induction rows with
  | nil => intro agg hagg; simpa [trendAggRows] using hagg
  | cons r rest ih =>
    intro agg hagg
    rcases hy : r.year with _ | y <;> rcases hq : r.quarter with _ | q <;>
      simp only [trendAggRows, hy, hq]
    · exact ih agg hagg
    · exact ih agg hagg
    · exact ih agg hagg
    · by_cases hstop : yqLt y q y1 q1 = true
      · simpa [hstop] using hagg
      · simp only [hstop, if_false, Bool.false_eq_true]
        apply ih
        intro e he
        split at he
        · exact hagg e he
        · split at he
          · exact hagg e he
          · split at he
            · exact hagg e he
            · exact aggIncr_pos agg _ hagg e he

theorem legacy_foldl_pos (g : Bool) (so eo : Int) :
    ∀ (rows : List TrendRow) (agg : List ((String × String) × Nat)),
      (∀ e ∈ agg, 1 ≤ e.2) →
      ∀ e ∈ rows.foldl (fun agg r =>
          match r.year, r.quarter with
          | some y, some q =>
            if 1 ≤ q ∧ q ≤ 4 then
              if in_ordinal_range y q so eo then
                aggIncr agg (periodStr y q, legacyTrendLabel g r)
              else agg
            else agg
          | _, _ => agg) agg, 1 ≤ e.2 := by
  intro rows
  induction rows with
  | nil => intro agg hagg; simpa using hagg
  | cons r rest ih =>
    intro agg hagg
    rw [List.foldl_cons]
    apply ih
    rcases hy : r.year with _ | y <;> rcases hq : r.quarter with _ | q <;>
      simp only [hy, hq]
    · exact hagg
    · exact hagg
    · exact hagg
    · split
      · split
        · exact aggIncr_pos agg _ hagg
        · exact hagg
      · exact hagg

/-- C9 — The trend series endpoints never emit a zero (or negative) count:
every `{period, label, count}` entry of the modern (`src/routers/trend.py`)
and legacy (`src/main.py`) aggregations has `count ≥ 1`, because a bucket is
created only by a contributing record; empty quarters and labels are simply
absent from the server output. -/
theorem trend_series_counts_positive :
    (∀ (g : Bool) (y1 q1 y2 q2 : Int) (asm : List Int) (rows : List TrendRow)
        (e : String × String × Nat),
      e ∈ api_trend2_series_agg g y1 q1 y2 q2 asm rows → 1 ≤ e.2.2) ∧
    (∀ (g : Bool) (so eo : Int) (rows : List TrendRow) (e : String × String × Nat),
      e ∈ legacy_api_trend2_series_agg g so eo rows → 1 ≤ e.2.2) := by
  constructor
  · intro g y1 q1 y2 q2 asm rows e he
    unfold api_trend2_series_agg at he
    rw [(List.perm_insertionSort _ _).mem_iff, List.mem_map] at he
    obtain ⟨x, hx, rfl⟩ := he
    exact trendAggRows_pos g y1 q1 y2 q2 asm rows [] (by simp) x hx
  · intro g so eo rows e he
    unfold legacy_api_trend2_series_agg at he
    rw [(List.perm_insertionSort _ _).mem_iff, List.mem_map] at he
    obtain ⟨x, hx, rfl⟩ := he
    exact legacy_foldl_pos g so eo rows [] (by simp) x hx

/-- Witness for C9: a one-row table produces the single bucket
`("2024-Q2", "지방행정", 1)`, whose count the theorem bounds below by 1. -/
theorem trend_series_counts_positive_witness :
    ("2024-Q2", "지방행정", 1) ∈
      api_trend2_series_agg false 2024 2 2025 1 []
        [⟨some 2024, some 2, some 420, some "지방행정", none, none⟩] ∧
    1 ≤ (("2024-Q2", "지방행정", 1) : String × String × Nat).2.2 := by
  have hmem : ("2024-Q2", "지방행정", 1) ∈
      api_trend2_series_agg false 2024 2 2025 1 []
        [⟨some 2024, some 2, some 420, some "지방행정", none, none⟩] := by decide
  exact ⟨hmem, trend_series_counts_positive.1 false 2024 2 2025 1 [] _ _ hmem⟩

/-! ## Dashboard trend chart shaping (`renderTrend2Line`, src/main.py lines 1439–1476)

The chart input is the server's `{period, label, count}` list. The x-axis is
the sorted de-duplication of the periods *present in that list* (order of the
de-duplication pass is irrelevant because the axis is sorted right after);
each label's y-series reads the per-label map built by the render loop, where
a repeated `(label, period)` pair would keep the **last** written count
(`Map.set` overwrites), and missing pairs render as 0. -/

/-- The x-axis: `uniq(rows.map(r => r.period)).sort()`. -/
def renderPeriodsX (rows : List (String × String × Nat)) : List String :=
  ((rows.map (fun r => r.1)).dedup).insertionSort (fun a b => pyStrLe a b)

/-- The trace labels: `uniq(rows.map(r => r.label)).sort()`. -/
def renderLabelsX (rows : List (String × String × Nat)) : List String :=
  ((rows.map (fun r => r.2.1)).dedup).insertionSort (fun a b => pyStrLe a b)

/-- `byLabel.get(l).get(p) ?? 0`: the last count written for `(l, p)`, else 0. -/
def byLabelGet (rows : List (String × String × Nat)) (l p : String) : Nat :=
  (((rows.filter (fun r => r.2.1 = l && r.1 = p)).map (fun r => r.2.2)).getLast?).getD 0

/-- `renderTrend2Line` (data shaping): the x-axis and one `(label, y-series)`
trace per label. -/
def renderTrend2Line (rows : List (String × String × Nat)) :
    List String × List (String × List Nat) :=
  let periods := renderPeriodsX rows
  let labels := renderLabelsX rows
  (periods, labels.map (fun l => (l, periods.map (fun p => byLabelGet rows l p))))

/-- C1 (counterexample) — a 4-quarter request `2024-Q2 .. 2025-Q1` over a
table whose middle quarter `2024-Q3` has no matching rows: the server emits
buckets only for `2024-Q2`, `2024-Q4`, `2025-Q1`, and the client x-axis —
built from the periods present in the server list — omits `2024-Q3`
entirely instead of charting it with zero counts. -/
theorem trend_zero_fill_counterexample :
    (renderTrend2Line (api_trend2_series_agg false 2024 2 2025 1 []
        [⟨some 2025, some 1, some 420, some "재난·안전", none, none⟩,
         ⟨some 2024, some 4, some 420, some "재난·안전", none, none⟩,
         ⟨some 2024, some 2, some 420, some "지방행정", none, none⟩])).1 =
      ["2024-Q2", "2024-Q4", "2025-Q1"] ∧
    "2024-Q3" ∉ (renderTrend2Line (api_trend2_series_agg false 2024 2 2025 1 []
        [⟨some 2025, some 1, some 420, some "재난·안전", none, none⟩,
         ⟨some 2024, some 4, some 420, some "재난·안전", none, none⟩,
         ⟨some 2024, some 2, some 420, some "지방행정", none, none⟩])).1 := by
  constructor <;> decide

/-- C1 (amended) — densification is per label over the periods the server
returned: the x-axis contains exactly the periods present in the server's
`{period, label, count}` list; each label's trace spans that axis; and a
`(label, period)` pair with no server entry is charted as 0. A quarter with
no matching rows in any label is absent from the chart, not zero-filled. -/
theorem trend_zero_fill_per_label (rows : List (String × String × Nat)) :
    (∀ p, p ∈ (renderTrend2Line rows).1 ↔ ∃ r ∈ rows, r.1 = p) ∧
    (∀ l ys, (l, ys) ∈ (renderTrend2Line rows).2 →
      ys = (renderTrend2Line rows).1.map (fun p => byLabelGet rows l p)) ∧
    (∀ l p, (∀ r ∈ rows, ¬(r.2.1 = l ∧ r.1 = p)) → byLabelGet rows l p = 0) := by
  refine ⟨?_, ?_, ?_⟩
  · intro p
    show p ∈ renderPeriodsX rows ↔ _
    unfold renderPeriodsX
    rw [(List.perm_insertionSort _ _).mem_iff, List.mem_dedup, List.mem_map]
  · intro l ys hmem
    have hmem' : (l, ys) ∈ (renderLabelsX rows).map
        (fun l => (l, (renderPeriodsX rows).map (fun p => byLabelGet rows l p))) := hmem
    rw [List.mem_map] at hmem'
    obtain ⟨l', _, heq⟩ := hmem'
    rw [Prod.mk.injEq] at heq
    obtain ⟨hl, hys⟩ := heq
    subst hl
    exact hys.symm
  · intro l p hnone
    unfold byLabelGet
    have hfil : rows.filter (fun r => r.2.1 = l && r.1 = p) = [] := by
      rw [List.filter_eq_nil_iff]
      intro r hr
      have := hnone r hr
      simp only [Bool.and_eq_true, decide_eq_true_eq]
      tauto
    rw [hfil]
    rfl

/-- Witness for C1's amended theorem: with server entries for `2024-Q2`
(label A) and `2024-Q4` (label B), the pair `(A, 2024-Q4)` has no entry and
charts as 0. -/
theorem trend_zero_fill_per_label_witness :
    (∀ r ∈ [("2024-Q2", "A", 1), ("2024-Q4", "B", 2)],
      ¬(r.2.1 = "A" ∧ r.1 = "2024-Q4")) ∧
    byLabelGet [("2024-Q2", "A", 1), ("2024-Q4", "B", 2)] "A" "2024-Q4" = 0 :=
  ⟨by decide,
   (trend_zero_fill_per_label [("2024-Q2", "A", 1), ("2024-Q4", "B", 2)]).2.2
     "A" "2024-Q4" (by decide)⟩

/-! ## News issue aggregation (src/routers/news.py) -/

/-- A fetched news Q&A row with the six selected columns
(`batch_id, created_at, keyword, background, question, answer`). -/
structure NewsRow where
  batch_id : Option String
  created_at : Option String
  keyword : Option String
  background : Option String
  question : Option String
  answer : Option String
deriving DecidableEq

/-- Python truthiness of an optional string (`None` and `""` are falsy). -/
def truthyStr : Option String → Bool
  | none => false
  | some s => s ≠ ""

/-- Python `str(...)` of a value that is either a string or `None`. -/
def strOf : Option String → String
  | none => "None"
  | some s => s

/-- ASCII lowering, as Python `.lower()` acts on the ASCII range. -/
def pyLower (s : String) : String :=
  String.mk (s.data.map Char.toLower)

/-- Substring occurrence (`needle in hay` for Python strings). -/
def subOccurs : List Char → List Char → Bool
  | needle, [] => needle.isEmpty
  | needle, c :: t => needle.isPrefixOf (c :: t) || subOccurs needle t

/-- `kw = (r.get("keyword") or "").strip() or "미분류"`. -/
def normKeyword (r : NewsRow) : String :=
  let k := pyStrip (r.keyword.getD "")
  if k = "" then "미분류" else k

/-- `(bg[:160] + "…") if len(bg) > 160 else bg`. -/
def previewOf (bg : String) : String :=
  if 160 < bg.data.length then String.mk (bg.data.take 160) ++ "…" else bg

/-- One aggregated issue (`{keyword, qa_count, latest_at, background_preview}`). -/
structure Issue where
  keyword : String
  qa_count : Nat
  latest_at : Option String
  background_preview : String
deriving DecidableEq

/-- The per-row mutation of an existing issue entry in `api_news_issues`:
bump `qa_count`, and take the row's `created_at` as `latest_at` when it is
truthy and either the current `latest_at` is falsy or the row's is strictly
greater as a string. -/
def newsUpdate (r : NewsRow) (i : Issue) : Issue :=
  let i' := { i with qa_count := i.qa_count + 1 }
  if truthyStr r.created_at &&
      (!truthyStr i'.latest_at || pyStrLt (strOf i'.latest_at) (strOf r.created_at)) then
    { i' with latest_at := r.created_at }
  else i'

/-- One iteration of the `keyword`-grouping loop of `api_news_issues`
(`src/routers/news.py` lines 82–96): on first sight of a keyword an entry is
created whose `background_preview` is the truncation of **that row's**
(stripped) `background`; the entry is then counted and its `latest_at`
maintained. -/
def newsStep (st : List Issue) (r : NewsRow) : List Issue :=
  (if st.any (fun i => i.keyword = normKeyword r) then st
   else st ++ [⟨normKeyword r, 0, r.created_at, previewOf (pyStrip (r.background.getD ""))⟩]).map
    (fun i => if i.keyword = normKeyword r then newsUpdate r i else i)

/-- The `q` search filter of `api_news_issues`: when `q` is truthy, keep rows
whose keyword/background/question contains `q.strip().lower()`
case-insensitively. -/
def newsHit (qq : String) (r : NewsRow) : Bool :=
  subOccurs qq.data (pyLower (strOf r.keyword)).data ||
  subOccurs qq.data (pyLower (strOf r.background)).data ||
  subOccurs qq.data (pyLower (strOf r.question)).data

/-- Apply the optional `q` filter (`if q:` — `None`/empty means no filter). -/
def newsFilter (q : Option String) (rows : List NewsRow) : List NewsRow :=
  match q with
  | none => rows
  | some qs => if qs = "" then rows else rows.filter (newsHit (pyLower (pyStrip qs)))

/-- The final sort of `api_news_issues`: by
`(str(latest_at or ""), qa_count, keyword)` descending (Python
`sort(key=..., reverse=True)`, stable). -/
def issueLe (a b : Issue) : Bool :=
  let ka := a.latest_at.getD ""
  let kb := b.latest_at.getD ""
  pyStrLt kb ka ||
    (kb == ka && (decide (b.qa_count < a.qa_count) ||
      (b.qa_count == a.qa_count && (pyStrLt b.keyword a.keyword || b.keyword == a.keyword))))

/-- `api_news_issues` from `src/routers/news.py` (aggregation phase): filter
the fetched `created_at`-descending rows by `q`, group by normalized keyword,
and sort the issues by `(latest_at, qa_count, keyword)` descending. -/
def api_news_issues (q : Option String) (rows : List NewsRow) : List Issue :=
  ((newsFilter q rows).foldl newsStep []).insertionSort (fun a b => issueLe a b)

/-- Modelled from the spec (refinement claim only): "the first-seen non-empty
`background` value among that keyword's rows". -/
def spec_first_nonempty_background (rows : List NewsRow) (kw : String) : Option String :=
  ((rows.filterMap (fun r => if normKeyword r = kw then
      some (pyStrip (r.background.getD "")) else none)).find? (fun b => b ≠ ""))

/-- C3 (counterexample) — with two rows for keyword `"k"` whose first
(`created_at`-descending) row has an empty `background` and whose second has
`"hello"`, the endpoint's `background_preview` is `""`, not the first-seen
non-empty background `"hello"` that the claim requires (whose truncation is
`"hello"` itself). -/
theorem news_preview_counterexample :
    (api_news_issues none
        [⟨none, some "2024-01-02", some "k", some "", some "q1", none⟩,
         ⟨none, some "2024-01-01", some "k", some "hello", some "q2", none⟩]).map
        Issue.background_preview = [""] ∧
    spec_first_nonempty_background
        [⟨none, some "2024-01-02", some "k", some "", some "q1", none⟩,
         ⟨none, some "2024-01-01", some "k", some "hello", some "q2", none⟩] "k" =
      some "hello" ∧
    previewOf "hello" = "hello" ∧ ("" : String) ≠ "hello" := by
  refine ⟨by decide, by decide, by decide, by decide⟩

theorem newsUpdate_keyword (r : NewsRow) (i : Issue) :
    (newsUpdate r i).keyword = i.keyword := by
  simp only [newsUpdate]
  split <;> rfl

theorem newsUpdate_preview (r : NewsRow) (i : Issue) :
    (newsUpdate r i).background_preview = i.background_preview := by
  simp only [newsUpdate]
  split <;> rfl

theorem find?_map_keyUpdate (kw' : String) (g : Issue → Issue)
    (hg : ∀ i, (g i).keyword = i.keyword) (kw : String) :
    ∀ st : List Issue,
      (st.map (fun i => if i.keyword = kw' then g i else i)).find? (fun i => i.keyword = kw) =
        (st.find? (fun i => i.keyword = kw)).map (fun i => if i.keyword = kw' then g i else i) := by
  intro st
  induction st with
  | nil => rfl
  | cons i st ih =>
    simp only [List.map_cons, List.find?_cons]
    by_cases h2 : i.keyword = kw
    · have hpred : (if i.keyword = kw' then g i else i).keyword = kw := by
        by_cases h : i.keyword = kw'
        · rw [if_pos h, hg]
          exact h2
        · rw [if_neg h]
          exact h2
      rw [show (decide ((if i.keyword = kw' then g i else i).keyword = kw)) = true by
            simp [hpred],
          show (decide (i.keyword = kw)) = true by simp [h2]]
      simp
    · have hpred : ¬(if i.keyword = kw' then g i else i).keyword = kw := by
        by_cases h : i.keyword = kw'
        · rw [if_pos h, hg]
          exact h2
        · rw [if_neg h]
          exact h2
      rw [show (decide ((if i.keyword = kw' then g i else i).keyword = kw)) = false by
            simp [hpred],
          show (decide (i.keyword = kw)) = false by simp [h2]]
      exact ih

theorem issueFor_newsStep_preview (st : List Issue) (r : NewsRow) (kw : String) :
    ((newsStep st r).find? (fun i => i.keyword = kw)).map Issue.background_preview =
      match st.find? (fun i => i.keyword = kw) with
      | some i => some i.background_preview
      | none =>
        if normKeyword r = kw then some (previewOf (pyStrip (r.background.getD ""))) else none := by
  unfold newsStep
  by_cases hany : st.any (fun i => i.keyword = normKeyword r)
  · rw [if_pos hany, find?_map_keyUpdate (normKeyword r) (newsUpdate r)
      (fun i => newsUpdate_keyword r i) kw]
    cases hf : st.find? (fun i => i.keyword = kw) with
    | none =>
      simp only [hf, Option.map_none']
      by_cases hkw : normKeyword r = kw
      · exfalso
        rw [List.any_eq_true] at hany
        obtain ⟨i, hi, hik⟩ := hany
        rw [decide_eq_true_eq] at hik
        have hsome : (st.find? (fun i => i.keyword = kw)).isSome :=
          List.find?_isSome.mpr ⟨i, hi, by simp [hik, hkw]⟩
        rw [hf] at hsome
        simp at hsome
      · simp [hkw]
    | some i =>
      by_cases hik : i.keyword = normKeyword r <;>
        simp [hf, hik, newsUpdate_preview]
  · rw [if_neg hany, find?_map_keyUpdate (normKeyword r) (newsUpdate r)
      (fun i => newsUpdate_keyword r i) kw, List.find?_append]
    cases hf : st.find? (fun i => i.keyword = kw) with
    | some i =>
      by_cases hik : i.keyword = normKeyword r <;>
        simp [hf, hik, newsUpdate_preview, Option.or]
    | none =>
      by_cases hkw : normKeyword r = kw <;>
        simp [hf, hkw, List.find?_cons, Option.or, newsUpdate_preview]

theorem foldl_newsStep_preview (rows : List NewsRow) :
    ∀ (st : List Issue) (kw : String),
      ((rows.foldl newsStep st).find? (fun i => i.keyword = kw)).map Issue.background_preview =
        match st.find? (fun i => i.keyword = kw) with
        | some i => some i.background_preview
        | none => (rows.find? (fun r => normKeyword r = kw)).map
            (fun r => previewOf (pyStrip (r.background.getD ""))) := by
  induction rows with
  | nil =>
    intro st kw
    cases hf : st.find? (fun i => i.keyword = kw) <;> simp [hf]
  | cons r rest ih =>
    intro st kw
    rw [List.foldl_cons, ih (newsStep st r) kw]
    have hstep := issueFor_newsStep_preview st r kw
    cases ho : (newsStep st r).find? (fun i => i.keyword = kw) with
    | some j =>
      rw [ho, Option.map_some'] at hstep
      cases hf : st.find? (fun i => i.keyword = kw) with
      | some i =>
        rw [hf] at hstep
        simp only [ho, hf]
        exact hstep
      | none =>
        rw [hf] at hstep
        by_cases hkw : normKeyword r = kw
        · rw [if_pos hkw] at hstep
          simp only [ho, hf, List.find?_cons, show (decide (normKeyword r = kw)) = true by
            simp [hkw], Option.map_some']
          exact hstep
        · rw [if_neg hkw] at hstep
          exact absurd hstep (by simp)
    | none =>
      rw [ho, Option.map_none'] at hstep
      cases hf : st.find? (fun i => i.keyword = kw) with
      | some i =>
        rw [hf] at hstep
        exact absurd hstep.symm (by simp)
      | none =>
        rw [hf] at hstep
        by_cases hkw : normKeyword r = kw
        · rw [if_pos hkw] at hstep
          exact absurd hstep.symm (by simp)
        · simp only [ho, hf, List.find?_cons, show (decide (normKeyword r = kw)) = false by
            simp [hkw]]

theorem newsStep_keywords (st : List Issue) (r : NewsRow) :
    (newsStep st r).map Issue.keyword =
      if st.any (fun i => i.keyword = normKeyword r) then st.map Issue.keyword
      else st.map Issue.keyword ++ [normKeyword r] := by
  unfold newsStep
  by_cases hany : st.any (fun i => i.keyword = normKeyword r)
  · rw [if_pos hany, if_pos hany, List.map_map]
    apply List.map_congr_left
    intro i _
    by_cases h : i.keyword = normKeyword r <;> simp [h, newsUpdate_keyword]
  · rw [if_neg hany, if_neg hany]
    simp only [List.map_append, List.map_map]
    congr 1
    · apply List.map_congr_left
      intro i _
      by_cases h : i.keyword = normKeyword r <;> simp [h, newsUpdate_keyword]
    · simp [newsUpdate_keyword]

theorem foldl_newsStep_keywords_nodup (rows : List NewsRow) :
    ∀ st : List Issue,
      (st.map Issue.keyword).Nodup → ((rows.foldl newsStep st).map Issue.keyword).Nodup := by
  induction rows with
  | nil => intro st h; simpa using h
  | cons r rest ih =>
    intro st h
    rw [List.foldl_cons]
    apply ih
    rw [newsStep_keywords]
    by_cases hany : st.any (fun i => i.keyword = normKeyword r)
    · simpa [hany] using h
    · rw [if_neg hany]
      have hnotmem : normKeyword r ∉ st.map Issue.keyword := by
        intro hmem
        apply hany
        rw [List.mem_map] at hmem
        obtain ⟨i, hi, hik⟩ := hmem
        exact List.any_eq_true.mpr ⟨i, hi, by simp [hik]⟩
      simp [List.nodup_append, h, hnotmem]

theorem find?_eq_of_mem_nodupKeys :
    ∀ (l : List Issue), (l.map Issue.keyword).Nodup →
      ∀ i ∈ l, l.find? (fun j => j.keyword = i.keyword) = some i := by
  intro l
  induction l with
  | nil => simp
  | cons j l ih =>
    intro hnd i hi
    have hndl : (l.map Issue.keyword).Nodup := by
      rw [List.map_cons, List.nodup_cons] at hnd
      exact hnd.2
    rw [List.find?_cons]
    by_cases hj : j.keyword = i.keyword
    · have hij : i = j := by
        rcases List.mem_cons.mp hi with rfl | hil
        · rfl
        · exfalso
          have hjk : j.keyword ∉ l.map Issue.keyword := by
            rw [List.map_cons, List.nodup_cons] at hnd
            exact hnd.1
          exact hjk (hj ▸ List.mem_map_of_mem Issue.keyword hil)
      subst hij
      simp
    · have hil : i ∈ l := by
        rcases List.mem_cons.mp hi with rfl | h
        · exact absurd rfl hj
        · exact h
      simp only [show (decide (j.keyword = i.keyword)) = false by simp [hj]]
      exact ih hndl i hil

/-- C3 (amended) — each returned issue's `background_preview` equals the
(possibly empty) stripped `background` of the **first** row of that keyword
among the filtered, `created_at`-descending rows — truncated to 160
characters with a trailing ellipsis iff longer — not the first **non-empty**
background: an empty first background is kept as the preview forever. -/
theorem news_issue_preview_first_row (q : Option String) (rows : List NewsRow) :
    ∀ i ∈ api_news_issues q rows,
      ((newsFilter q rows).find? (fun r => normKeyword r = i.keyword)).map
        (fun r => previewOf (pyStrip (r.background.getD ""))) = some i.background_preview := by
  intro i hi
  unfold api_news_issues at hi
  rw [(List.perm_insertionSort _ _).mem_iff] at hi
  have hnd := foldl_newsStep_keywords_nodup (newsFilter q rows) [] (by simp)
  have hfind := find?_eq_of_mem_nodupKeys _ hnd i hi
  have hL := foldl_newsStep_preview (newsFilter q rows) [] i.keyword
  rw [hfind] at hL
  simp only [List.find?_nil] at hL
  rw [Option.map_some'] at hL
  exact hL.symm

/-- Witness for C3's amended theorem: one row with keyword `"k"` and
background `"hello"` yields the issue whose preview is `"hello"`, the
truncation of the first row's background. -/
theorem news_issue_preview_first_row_witness :
    (⟨"k", 1, some "2024-01-01", "hello"⟩ : Issue) ∈
      api_news_issues none [⟨none, some "2024-01-01", some "k", some "hello", some "q", none⟩] ∧
    ((newsFilter none [⟨none, some "2024-01-01", some "k", some "hello", some "q", none⟩]).find?
        (fun r => normKeyword r = (⟨"k", 1, some "2024-01-01", "hello"⟩ : Issue).keyword)).map
      (fun r => previewOf (pyStrip (r.background.getD ""))) =
      some (⟨"k", 1, some "2024-01-01", "hello"⟩ : Issue).background_preview :=
  ⟨by decide,
   news_issue_preview_first_row none
     [⟨none, some "2024-01-01", some "k", some "hello", some "q", none⟩]
     ⟨"k", 1, some "2024-01-01", "hello"⟩ (by decide)⟩

/-! ## Speech snippet windowing (`_make_snippet`, src/routers/speech.py lines 122–152)

The sentence splitter regex `(?<=[.!?…])\s+|\n+` is rendered as a character
state machine: a whitespace run directly after sentence punctuation, or a
newline run, is a split point (the first alternative is tried first, and runs
are consumed greedily, as `re.split` does). -/

/-- Sentence-final punctuation of the split pattern (`[.!?…]`). -/
def isSentPunct (c : Char) : Bool :=
  c = '.' || c = '!' || c = '?' || c = '…'

/-- Lookbehind test on the previously consumed character (if any). -/
def prevIsPunct : Option Char → Bool
  | none => false
  | some c => isSentPunct c

/-- The splitter automaton: `mode 1` is inside a `(?<=[.!?…])\s+` run,
`mode 2` inside a `\n+` run, `mode 0` ordinary text; a split emits the piece
accumulated so far (`acc`, reversed). -/
def sentGo (mode : Nat) (prev : Option Char) (acc : List Char) : List Char → List (List Char)
  | [] => [acc.reverse]
  | c :: cs =>
    if mode = 1 && pyIsSpace c then sentGo 1 (some c) acc cs
    else if mode = 2 && c = '\n' then sentGo 2 (some c) acc cs
    else if prevIsPunct prev && pyIsSpace c then acc.reverse :: sentGo 1 (some c) [] cs
    else if c = '\n' then acc.reverse :: sentGo 2 (some c) [] cs
    else sentGo 0 (some c) (c :: acc) cs

/-- `[s.strip() for s in _SENT_SPLIT.split(text) if s.strip()]`. -/
def sentencesOf (text : String) : List String :=
  ((sentGo 0 none [] text.data).map (fun cs => pyStrip (String.mk cs))).filter
    (fun s => s ≠ "")

/-- Case-insensitive literal substring search
(`re.compile(re.escape(kw), re.IGNORECASE).search(s)`). -/
def containsCI (kw s : String) : Bool :=
  subOccurs (pyLower kw).data (pyLower s).data

/-- `_make_snippet` from `src/routers/speech.py`: empty text or keyword (or no
sentences) yield the text unchanged; with the keyword found at sentence `idx`,
the window `[max(0, idx-window), min(len, max(0,idx-window)+max_sent))` is
re-anchored from the end (`start = max(0, end - max_sent)`), joined with
spaces; `snippet_truncated` records whether any sentence was dropped. -/
def make_snippet (text kw : String) (window maxSent : Nat) : String × Bool :=
  if text = "" || kw = "" then (text, false)
  else if sentencesOf text = [] then (text, false)
  else
    match (sentencesOf text).findIdx? (fun s => containsCI kw s) with
    | none =>
      (String.intercalate " " ((sentencesOf text).take maxSent),
       decide (maxSent < (sentencesOf text).length))
    | some idx =>
      let start0 := idx - window
      let endI := min (sentencesOf text).length (start0 + maxSent)
      let startI := endI - maxSent
      (String.intercalate " " (((sentencesOf text).drop startI).take (endI - startI)),
       decide (0 < startI ∨ endI < (sentencesOf text).length))

/-- C4 — Speech snippet windowing: for a 10-sentence text whose keyword
occurs (case-insensitively) first at sentence index 7, `_make_snippet` with
`window = 2`, `max_sent = 5` returns exactly sentences 5–9 (the window
re-anchored against the end of the text, 5 sentences) joined by spaces, with
`snippet_truncated = true`. -/
theorem snippet_window_reanchored (text kw : String)
    (h0 : text ≠ "") (h1 : kw ≠ "")
    (hlen : (sentencesOf text).length = 10)
    (hidx : (sentencesOf text).findIdx? (fun s => containsCI kw s) = some 7) :
    make_snippet text kw 2 5 =
      (String.intercalate " " ((sentencesOf text).drop 5), true) ∧
    ((sentencesOf text).drop 5).length = 5 := by
  have hne : sentencesOf text ≠ [] := by
    intro h
    rw [h] at hlen
    simp at hlen
  constructor
  · unfold make_snippet
    rw [if_neg (by simp [h0, h1]), if_neg hne]
    rw [hidx]
    simp only [hlen]
    norm_num
    rw [List.take_of_length_le (by rw [List.length_drop, hlen])]
  · rw [List.length_drop, hlen]

/-- Witness for C4 on a concrete 10-sentence text with the keyword in
sentence index 7 only. -/
theorem snippet_window_reanchored_witness :
    ("A0. A1. A2. A3. A4. A5. A6. KEY7. A8. A9." ≠ "" ∧ "KEY7" ≠ "" ∧
      (sentencesOf "A0. A1. A2. A3. A4. A5. A6. KEY7. A8. A9.").length = 10 ∧
      (sentencesOf "A0. A1. A2. A3. A4. A5. A6. KEY7. A8. A9.").findIdx?
        (fun s => containsCI "KEY7" s) = some 7) ∧
    make_snippet "A0. A1. A2. A3. A4. A5. A6. KEY7. A8. A9." "KEY7" 2 5 =
      (String.intercalate " "
        ((sentencesOf "A0. A1. A2. A3. A4. A5. A6. KEY7. A8. A9.").drop 5), true) :=
  ⟨⟨by decide, by decide, by decide, by decide⟩,
   (snippet_window_reanchored "A0. A1. A2. A3. A4. A5. A6. KEY7. A8. A9." "KEY7"
     (by decide) (by decide) (by decide) (by decide)).1⟩
